import Mathlib

set_option maxRecDepth 4000

/-
  Verification of the reconciliation and ledger-aggregation engine of a
  small bookkeeping backend (single source file `app.py`).

  The embedding models the persisted state (members, transactions,
  expenses) as lists of records, and each Flask route handler as an
  explicit state-transition function.  Monetary NUMERIC(10,2) values are
  embedded as rationals; the Python `float` conversions and additions
  performed by the report route are embedded exactly, as rounding of a
  rational to the nearest IEEE-754 binary64 value (round to nearest, ties
  to even; the inputs handled by the program are far inside the normal
  range of binary64, so overflow and subnormals do not arise and are not
  modelled).
-/

/-- Calendar date (used both for TIMESTAMP and DATE columns; only the
fields the program inspects — month, year, day — are kept). -/
structure CalDate where
  year : Nat
  month : Nat
  day : Nat
deriving DecidableEq, Repr

/-- Row of the `members` table (`birth_date` is never read by the code
under verification and is omitted). -/
structure Member where
  id : Nat
  code : String
  full_name : String
deriving DecidableEq, Repr

/-- Row of the `transactions` table. -/
structure Transaction where
  id : Nat
  mp_id : Option String
  payer_name : String
  member_id : Option Nat
  amount : ℚ
  transaction_date : CalDate
  status : String
  origin : String
  type : Option String
deriving DecidableEq, Repr

/-- Row of the `expenses` table. -/
structure Expense where
  id : Nat
  description : String
  category : String
  amount : ℚ
  expense_date : Option CalDate
deriving DecidableEq, Repr

/-- The persisted state: the three relations. -/
structure DB where
  members : List Member
  transactions : List Transaction
  expenses : List Expense
deriving DecidableEq, Repr

def emptyDB : DB := ⟨[], [], []⟩

/-- An HTTP response: status code and body message. -/
abbrev Resp := Nat × String

/-- Fresh SERIAL id: one more than the maximum id in use. -/
def nextId (ids : List Nat) : Nat := ids.foldl max 0 + 1

/- ### IEEE-754 binary64 arithmetic on rationals -/

/-- Base-2 logarithm with explicit fuel, so that the kernel can reduce it
on literals (128 suffices for every magnitude the program handles). -/
def log2fuel : Nat → Nat → Nat
  | 0, _ => 0
  | f + 1, n => if 2 ≤ n then log2fuel f (n / 2) + 1 else 0

def natLog2 (n : Nat) : Nat := log2fuel 128 n

/-- 2 ^ e as a rational, for integer e. -/
def pow2 (e : ℤ) : ℚ :=
  if 0 ≤ e then ((2 ^ e.toNat : ℕ) : ℚ) else 1 / ((2 ^ (-e).toNat : ℕ) : ℚ)

/-- Floor of the base-2 logarithm of a positive rational. -/
def qlog2 (q : ℚ) : ℤ :=
  let e0 : ℤ := (natLog2 q.num.natAbs : ℤ) - (natLog2 q.den : ℤ)
  if pow2 (e0 + 1) ≤ q then e0 + 1 else if pow2 e0 ≤ q then e0 else e0 - 1

/-- Round a positive rational to 53 significant bits
(round to nearest, ties to even). -/
def floatRoundPos (q : ℚ) : ℚ :=
  let e := qlog2 q
  let scaled := q * pow2 (52 - e)
  let lo : ℕ := scaled.num.toNat / scaled.den
  let frac : ℚ := scaled - (lo : ℚ)
  let mant : ℕ :=
    if frac < 1 / 2 then lo
    else if 1 / 2 < frac then lo + 1
    else if lo % 2 = 0 then lo else lo + 1
  (mant : ℚ) * pow2 (e - 52)

/-- The binary64 value nearest to a rational (the exact semantics of a
Python float holding that value, inside the normal range). -/
def floatRound (q : ℚ) : ℚ :=
  if q = 0 then 0 else if q < 0 then -floatRoundPos (-q) else floatRoundPos q

/-- Python `float(x)` applied to an exact NUMERIC value. -/
def pyFloat (q : ℚ) : ℚ := floatRound q

/-- Python float addition. -/
def fadd (a b : ℚ) : ℚ := floatRound (a + b)

/-- Python float subtraction. -/
def fsub (a b : ℚ) : ℚ := floatRound (a - b)

/-- Python `sum(...)` over floats: left fold of float addition,
starting from 0. -/
def fsum (l : List ℚ) : ℚ := l.foldl fadd 0

/- ### Identity resolver (the fuzzy-match block of `mp_webhook`) -/

/-- Key list of the dict comprehension of line 127 (full_name keys mapped
to id values): one key per distinct full name, in first-occurrence
order. -/
def dedupKeys (ms : List Member) : List String :=
  ms.foldl (fun acc m => if m.full_name ∈ acc then acc else acc ++ [m.full_name]) []

/-- Value lookup of the same dict: the id of the LAST member carrying the
given full name (later duplicates overwrite earlier ones). -/
def choicesVal (ms : List Member) (name : String) : Option Nat :=
  ms.foldl (fun acc m => if m.full_name = name then some m.id else acc) none

/-- One comparison step of the best-match scan. -/
def eoStep (score : String → ℕ) (acc : Option (String × ℕ)) (c : String) :
    Option (String × ℕ) :=
  match acc with
  | none => some (c, score c)
  | some (b, s) => if s < score c then some (c, score c) else some (b, s)

/-- `process.extractOne`: best-scoring choice, first one winning ties
(Python `max` keeps the earliest maximal element). The scorer is the
external fuzzy-matching library, abstracted as a function. -/
def extractOne (score : String → ℕ) (choices : List String) : Option (String × ℕ) :=
  choices.foldl (eoStep score) none

/-- The member-linking logic of `mp_webhook` (lines 125-132): no match on
an empty roster, otherwise link to the best fuzzy match when its score is
at least 85. -/
def resolve (score : String → String → ℕ) (payer : String) (ms : List Member) :
    Option Nat :=
  if ms.isEmpty then none
  else
    match extractOne (score payer) (dedupKeys ms) with
    | none => none
    | some (b, s) => if 85 ≤ s then choicesVal ms b else none

/- ### Webhook (`mp_webhook`) -/

/-- The fields of the notification payload the handler reads. -/
structure Notification where
  type : Option String
  action : Option String
  dataId : Option String
deriving DecidableEq, Repr

/-- The fields of the gateway payment detail the handler reads. -/
structure Payment where
  status : String
  first_name : String
  last_name : String
  transaction_amount : ℚ
  date_created : CalDate
deriving DecidableEq, Repr

/-- Line 96 of the source: payment-event test. -/
def isPaymentEvent (n : Notification) : Bool :=
  n.type = some "payment" || n.action = some "payment.created"

/-- Lines 111-113: payer display name. -/
def payerNameOf (p : Payment) : String :=
  (p.first_name ++ " " ++ p.last_name).trim

/-- Lines 135-139: `INSERT ... ON CONFLICT (mp_id) DO NOTHING`.  A row
whose `mp_id` equals the incoming external id blocks the insert (NULL
`mp_id` values never conflict). -/
def insertIfAbsent (pid : String) (pname : String) (mref : Option Nat)
    (amt : ℚ) (dt : CalDate) (txs : List Transaction) : List Transaction :=
  if txs.any (fun t => t.mp_id = some pid) then txs
  else txs ++ [⟨nextId (txs.map (·.id)), some pid, pname, mref, amt, dt,
                "pendente", "pix", none⟩]

/-- The webhook handler, lines 89-146.  `sdkOk` models whether
`MP_ACCESS_TOKEN` was configured; `gw` is the gateway detail fetch,
returning `none` when the remote call raises (the surrounding
`try/except` catches, logs and falls through to the final 200). -/
def mp_webhook (score : String → String → ℕ) (sdkOk : Bool)
    (gw : String → Option Payment) (notif : Notification) (db : DB) :
    DB × Resp :=
  if !sdkOk then (db, (500, "SDK nao configurado"))
  else if isPaymentEvent notif then
    match notif.dataId with
    | none => (db, (200, "ignored"))
    | some pid =>
      if pid = "" then (db, (200, "ignored"))
      else
        match gw pid with
        | none => (db, (200, "ok"))
        | some pay =>
          if pay.status = "approved" then
            let pname := payerNameOf pay
            let best := resolve score pname db.members
            let txs2 := insertIfAbsent pid pname best pay.transaction_amount
              pay.date_created db.transactions
            ({ db with transactions := txs2 }, (200, "ok"))
          else (db, (200, "ok"))
  else (db, (200, "ok"))

/- ### Operator routes -/

/-- POST body of `/api/transactions`. -/
inductive TxPost where
  | confirm (id : Nat) (ty : String)
  | manual_add (name : String) (amount : ℚ) (ty : String) (now : CalDate)

/-- POST branch of `manage_transactions`, lines 220-234.  `confirm` runs
the UPDATE that sets type to the supplied category and status to
confirmado for every row with the given id (matching zero rows is not
detected); `manual_add` inserts an already confirmed manual row with NULL
`mp_id` and NULL `member_id`.  Both paths answer the Sucesso message. -/
def manage_transactions (p : TxPost) (db : DB) : DB × Resp :=
  match p with
  | .confirm i ty =>
    ({ db with transactions :=
        db.transactions.map fun t =>
          if t.id = i then { t with type := some ty, status := "confirmado" } else t },
     (200, "Sucesso"))
  | .manual_add name amt ty now =>
    ({ db with transactions :=
        db.transactions ++
          [⟨nextId (db.transactions.map (·.id)), none, name, none, amt, now,
            "confirmado", "manual", some ty⟩] },
     (200, "Sucesso"))

/-- POST branch of `manage_members`, lines 186-191. -/
def manage_members_post (code full_name : String) (db : DB) : DB × Resp :=
  ({ db with members := db.members ++ [⟨nextId (db.members.map (·.id)), code, full_name⟩] },
   (200, "Membro adicionado"))

/-- DELETE branch of `manage_members`, lines 193-197, together with the
schema constraint `ON DELETE SET NULL` on `transactions.member_id`. -/
def manage_members_delete (i : Nat) (db : DB) : DB × Resp :=
  ({ db with
      members := db.members.filter (fun m => ¬ m.id = i),
      transactions := db.transactions.map fun t =>
        if t.member_id = some i then { t with member_id := none } else t },
   (200, "Membro removido"))

/-- POST branch of `manage_expenses`, lines 252-257. -/
def manage_expenses_post (description category : String) (amt : ℚ)
    (d : Option CalDate) (db : DB) : DB × Resp :=
  ({ db with expenses :=
      db.expenses ++ [⟨nextId (db.expenses.map (·.id)), description, category, amt, d⟩] },
   (200, "Despesa salva"))

/-- DELETE branch of `manage_expenses`, lines 259-263 (matching zero rows
is not detected). -/
def manage_expenses_delete (i : Nat) (db : DB) : DB × Resp :=
  ({ db with expenses := db.expenses.filter (fun e => ¬ e.id = i) },
   (200, "Despesa removida"))

/-- Every state-mutating exposed action of the system (the GET routes and
the report route only read the store and are identities on it). -/
inductive Op where
  | hook (sdkOk : Bool) (notif : Notification)
  | txPost (p : TxPost)
  | memberAdd (code full_name : String)
  | memberDelete (i : Nat)
  | expenseAdd (description category : String) (amt : ℚ) (d : Option CalDate)
  | expenseDelete (i : Nat)

/-- One request, dispatched to its handler. -/
def step (score : String → String → ℕ) (gw : String → Option Payment) :
    Op → DB → DB × Resp
  | .hook sdkOk n, db => mp_webhook score sdkOk gw n db
  | .txPost p, db => manage_transactions p db
  | .memberAdd c n, db => manage_members_post c n db
  | .memberDelete i, db => manage_members_delete i db
  | .expenseAdd de c a dt, db => manage_expenses_post de c a dt db
  | .expenseDelete i, db => manage_expenses_delete i db

/- ### Dashboard (`get_dashboard`) -/

/-- Dashboard JSON payload. -/
structure Dash where
  inflow : ℚ
  outflow : ℚ
  balance : ℚ
deriving DecidableEq, Repr

/-- Sum of confirmed transaction amounts whose month equals the given one
— the year is NOT part of the filter, exactly as in the SQL of lines
156-159. -/
def monthInflowExact (db : DB) (month : Nat) : ℚ :=
  ((db.transactions.filter
      (fun t => t.status = "confirmado" ∧ t.transaction_date.month = month)).map
    (·.amount)).sum

/-- Sum of expense amounts whose month equals the given one (lines
164-167; a NULL `expense_date` never matches the EXTRACT comparison). -/
def monthOutflowExact (db : DB) (month : Nat) : ℚ :=
  ((db.expenses.filter
      (fun e =>
        match e.expense_date with
        | some d => decide (d.month = month)
        | none => false)).map
    (·.amount)).sum

/-- The dashboard route, lines 150-173.  SUM over NUMERIC yields an exact
decimal (psycopg2 `Decimal`); only the three results are converted to
float for the JSON payload, and `balance` is the float of the exact
difference. -/
def get_dashboard (db : DB) (today : CalDate) : Dash :=
  let inflow := monthInflowExact db today.month
  let outflow := monthOutflowExact db today.month
  ⟨pyFloat inflow, pyFloat outflow, pyFloat (inflow - outflow)⟩

/-- Follows the spec words, for comparison with `get_dashboard`: inflow of
the current calendar period, i.e. transactions of the current month AND
year. -/
def specDashboardInflow (db : DB) (today : CalDate) : ℚ :=
  ((db.transactions.filter
      (fun t => t.status = "confirmado" ∧ t.transaction_date.month = today.month ∧
        t.transaction_date.year = today.year)).map
    (·.amount)).sum

/- ### Report (`generate_report`) -/

/-- Period filter of the inflow query, lines 280-287. -/
def txConfirmedInPeriod (month year : Nat) (t : Transaction) : Bool :=
  t.status = "confirmado" ∧ t.transaction_date.month = month ∧
    t.transaction_date.year = year

/-- Period filter of the outflow query, lines 291-295. -/
def expenseInPeriod (month year : Nat) (e : Expense) : Bool :=
  match e.expense_date with
  | some d => decide (d.month = month ∧ d.year = year)
  | none => false

/-- LEFT JOIN of a transaction with its member code. -/
def memberCode (db : DB) (mid : Option Nat) : Option String :=
  match mid with
  | none => none
  | some i => (db.members.find? (fun m => m.id = i)).map (·.code)

/-- One fetched row of the inflow query. -/
structure InRow where
  amount : ℚ
  transaction_date : CalDate
  type : Option String
  code : Option String
deriving DecidableEq, Repr

/-- The compiled statement: the summary figures and the two itemized
tables, with the numeric value each money cell renders. -/
structure Statement where
  title : String
  prev_balance : ℚ
  total_in : ℚ
  total_out : ℚ
  final_balance : ℚ
  inflow_rows : List (CalDate × String × Option String × ℚ)
  outflow_rows : List (Option CalDate × String × ℚ)
deriving DecidableEq, Repr

/-- Placeholder for an unlinked row, line 334. -/
def codeCell : Option String → String
  | some c => c
  | none => "---"

/-- The report route, lines 269-361.  Totals are computed by converting
each NUMERIC amount to a Python float and summing floats (lines 301-303);
the previous balance arrives as a float; the closing balance is the float
evaluation of `(prev_balance + total_in) - total_out`; each money cell of
the tables renders the float of its row amount. -/
def generate_report (month year : Nat) (prev_balance : ℚ) (db : DB) : Statement :=
  let inflows : List InRow :=
    (db.transactions.filter (txConfirmedInPeriod month year)).map
      (fun t => ⟨t.amount, t.transaction_date, t.type, memberCode db t.member_id⟩)
  let outflows : List Expense := db.expenses.filter (expenseInPeriod month year)
  let total_in := fsum (inflows.map (fun i => pyFloat i.amount))
  let total_out := fsum (outflows.map (fun o => pyFloat o.amount))
  let prevF := pyFloat prev_balance
  { title := "Relatorio Financeiro - " ++ toString month ++ "/" ++ toString year
    prev_balance := prevF
    total_in := total_in
    total_out := total_out
    final_balance := fsub (fadd prevF total_in) total_out
    inflow_rows := inflows.map
      (fun i => (i.transaction_date, codeCell i.code, i.type, pyFloat i.amount))
    outflow_rows := outflows.map
      (fun e => (e.expense_date, e.description, pyFloat e.amount)) }

/-- The Monthly Aggregator of the spec, as the code implements it (the
grouping of lines 301-303 of `generate_report`): float inflow total,
float outflow total, and the float balance. -/
def aggregate (month year : Nat) (prev : ℚ) (db : DB) : ℚ × ℚ × ℚ :=
  let tin := fsum ((db.transactions.filter (txConfirmedInPeriod month year)).map
    (fun t => pyFloat t.amount))
  let tout := fsum ((db.expenses.filter (expenseInPeriod month year)).map
    (fun e => pyFloat e.amount))
  (tin, tout, fsub (fadd (pyFloat prev) tin) tout)

/-- Follows the spec words, for comparison with `generate_report`: the
fixed-point balance `previousBalance + inflow - outflow` over the exact
2-decimal amounts, with no intermediate rounding. -/
def specExactBalance (month year : Nat) (prev : ℚ) (db : DB) : ℚ :=
  prev +
    ((db.transactions.filter (txConfirmedInPeriod month year)).map (·.amount)).sum -
    ((db.expenses.filter (expenseInPeriod month year)).map (·.amount)).sum

/- ### Duplicate counting -/

/-- Number of transaction rows carrying a given external id. -/
def countPidTx (txs : List Transaction) (pid : String) : Nat :=
  (txs.filter (fun t => t.mp_id = some pid)).length

/-- Same, over the store. -/
def countPid (db : DB) (pid : String) : Nat := countPidTx db.transactions pid

/- ### Lemmas about the identity resolver -/

theorem eoFold_spec (f : String → ℕ) :
    ∀ (cs : List String) (p : String × ℕ), f p.1 = p.2 →
      ∃ q : String × ℕ, cs.foldl (eoStep f) (some p) = some q ∧ f q.1 = q.2 ∧
        (q = p ∨ q.1 ∈ cs) ∧ p.2 ≤ q.2 ∧ ∀ c ∈ cs, f c ≤ q.2 := by
  intro cs
  induction cs with
  | nil => intro p hp; exact ⟨p, rfl, hp, Or.inl rfl, le_refl _, by simp⟩
  | cons c cs ih =>
    intro p hp
    by_cases h : p.2 < f c
    · have step : eoStep f (some p) c = some (c, f c) := by
        simp [eoStep, h]
      obtain ⟨q, hq, hfq, hmem, hle, hall⟩ := ih (c, f c) rfl
      refine ⟨q, ?_, hfq, ?_, ?_, ?_⟩
      · simpa [List.foldl_cons, step] using hq
      · rcases hmem with h2 | h2
        · exact Or.inr (by simp [h2])
        · exact Or.inr (List.mem_cons_of_mem _ h2)
      · exact le_of_lt (lt_of_lt_of_le h hle)
      · intro x hx
        rcases List.mem_cons.mp hx with rfl | hx2
        · exact hle
        · exact hall x hx2
    · have step : eoStep f (some p) c = some p := by
        simp [eoStep, h]
      obtain ⟨q, hq, hfq, hmem, hle, hall⟩ := ih p hp
      refine ⟨q, ?_, hfq, ?_, hle, ?_⟩
      · simpa [List.foldl_cons, step] using hq
      · rcases hmem with h2 | h2
        · exact Or.inl h2
        · exact Or.inr (List.mem_cons_of_mem _ h2)
      · intro x hx
        rcases List.mem_cons.mp hx with rfl | hx2
        · exact le_trans (not_lt.mp h) hle
        · exact hall x hx2

theorem extractOne_spec (f : String → ℕ) (c : String) (cs : List String) :
    ∃ b s, extractOne f (c :: cs) = some (b, s) ∧ b ∈ c :: cs ∧ f b = s ∧
      ∀ x ∈ c :: cs, f x ≤ s := by
  obtain ⟨q, hq, hfq, hmem, hle, hall⟩ := eoFold_spec f cs (c, f c) rfl
  refine ⟨q.1, q.2, ?_, ?_, hfq, ?_⟩
  · simpa [extractOne, List.foldl_cons, eoStep] using hq
  · rcases hmem with rfl | h2
    · exact List.mem_cons_self _ _
    · exact List.mem_cons_of_mem _ h2
  · intro x hx
    rcases List.mem_cons.mp hx with rfl | hx2
    · exact hle
    · exact hall x hx2

theorem mem_dedupFold (ms : List Member) :
    ∀ (acc : List String) (x : String),
      x ∈ ms.foldl (fun acc m => if m.full_name ∈ acc then acc else acc ++ [m.full_name]) acc ↔
        x ∈ acc ∨ ∃ m ∈ ms, m.full_name = x := by
  induction ms with
  | nil => intro acc x; simp
  | cons m ms ih =>
    intro acc x
    by_cases h : m.full_name ∈ acc
    · rw [List.foldl_cons, if_pos h, ih]
      constructor
      · rintro (hx | hx)
        · exact Or.inl hx
        · exact Or.inr ⟨_, List.mem_cons_of_mem _ hx.choose_spec.1, hx.choose_spec.2⟩
      · rintro (hx | ⟨m2, hm2, hname⟩)
        · exact Or.inl hx
        · rcases List.mem_cons.mp hm2 with rfl | hm3
          · exact Or.inl (hname ▸ h)
          · exact Or.inr ⟨m2, hm3, hname⟩
    · rw [List.foldl_cons, if_neg h, ih]
      constructor
      · rintro (hx | hx)
        · rcases List.mem_append.mp hx with hx2 | hx2
          · exact Or.inl hx2
          · exact Or.inr ⟨m, List.mem_cons_self _ _, (List.mem_singleton.mp hx2).symm⟩
        · exact Or.inr ⟨_, List.mem_cons_of_mem _ hx.choose_spec.1, hx.choose_spec.2⟩
      · rintro (hx | ⟨m2, hm2, hname⟩)
        · exact Or.inl (List.mem_append_left _ hx)
        · rcases List.mem_cons.mp hm2 with rfl | hm3
          · exact Or.inl (List.mem_append_right _ (by simp [hname]))
          · exact Or.inr ⟨m2, hm3, hname⟩

theorem mem_dedupKeys (ms : List Member) (x : String) :
    x ∈ dedupKeys ms ↔ ∃ m ∈ ms, m.full_name = x := by
  rw [dedupKeys, mem_dedupFold]
  simp

theorem choicesVal_append (ms : List Member) (m : Member) (name : String) :
    choicesVal (ms ++ [m]) name =
      if m.full_name = name then some m.id else choicesVal ms name := by
  simp [choicesVal, List.foldl_append]

theorem choicesVal_eq_none (name : String) :
    ∀ (ms : List Member), choicesVal ms name = none ↔ ∀ m ∈ ms, m.full_name ≠ name := by
  intro ms
  induction ms using List.reverseRecOn with
  | nil => simp [choicesVal]
  | append_singleton ms m ih =>
    rw [choicesVal_append]
    by_cases h : m.full_name = name
    · rw [if_pos h]
      simp only [iff_false, reduceCtorEq, false_iff]
      intro hall
      exact hall m (List.mem_append_right _ (List.mem_singleton_self _)) h
    · rw [if_neg h, ih]
      constructor
      · intro hall m2 hm2
        rcases List.mem_append.mp hm2 with h2 | h2
        · exact hall m2 h2
        · rw [List.mem_singleton.mp h2]; exact h
      · intro hall m2 hm2
        exact hall m2 (List.mem_append_left _ hm2)

theorem choicesVal_last_spec (name : String) :
    ∀ (ms : List Member) (i : Nat), choicesVal ms name = some i →
      ∃ pre m post, ms = pre ++ m :: post ∧ m.id = i ∧ m.full_name = name ∧
        ∀ m2 ∈ post, m2.full_name ≠ name := by
  intro ms
  induction ms using List.reverseRecOn with
  | nil => intro i h; simp [choicesVal] at h
  | append_singleton ms m ih =>
    intro i h
    rw [choicesVal_append] at h
    by_cases hname : m.full_name = name
    · rw [if_pos hname] at h
      exact ⟨ms, m, [], rfl, Option.some_inj.mp h, hname, by simp⟩
    · rw [if_neg hname] at h
      obtain ⟨pre, m2, post, heq, hid, hnm, hpost⟩ := ih i h
      refine ⟨pre, m2, post ++ [m], by simp [heq], hid, hnm, ?_⟩
      intro m3 hm3
      rcases List.mem_append.mp hm3 with h3 | h3
      · exact hpost m3 h3
      · rw [List.mem_singleton.mp h3]; exact hname

theorem extractOne_dedup_spec (score : String → ℕ) (m : Member) (ms : List Member) :
    ∃ b s, extractOne score (dedupKeys (m :: ms)) = some (b, s) ∧
      (∃ m2 ∈ m :: ms, m2.full_name = b) ∧ score b = s ∧
      ∀ m2 ∈ m :: ms, score m2.full_name ≤ s := by
  cases hdk : dedupKeys (m :: ms) with
  | nil =>
    exfalso
    have hm : m.full_name ∈ dedupKeys (m :: ms) :=
      (mem_dedupKeys _ _).mpr ⟨m, List.mem_cons_self _ _, rfl⟩
    rw [hdk] at hm
    simp at hm
  | cons c cs =>
    obtain ⟨b, s, heo, hb, hsb, hall⟩ := extractOne_spec score c cs
    refine ⟨b, s, heo, ?_, hsb, ?_⟩
    · exact (mem_dedupKeys _ _).mp (by rw [hdk]; exact hb)
    · intro m2 hm2
      have : m2.full_name ∈ dedupKeys (m :: ms) :=
        (mem_dedupKeys _ _).mpr ⟨m2, hm2, rfl⟩
      rw [hdk] at this
      exact hall _ this

/-- C2: on an empty roster the resolver returns no match; otherwise it
returns the id of a member achieving the maximum similarity score exactly
when that maximum is at least 85, and no match when the maximum is below
85. -/
theorem c2_resolver_threshold (score : String → String → ℕ) (payer : String)
    (ms : List Member) :
    (ms = [] → resolve score payer ms = none)
    ∧ (∀ i, resolve score payer ms = some i →
        ∃ m, m ∈ ms ∧ m.id = i ∧ 85 ≤ score payer m.full_name ∧
          ∀ m2 ∈ ms, score payer m2.full_name ≤ score payer m.full_name)
    ∧ ((∃ m ∈ ms, 85 ≤ score payer m.full_name) →
        ∃ i, resolve score payer ms = some i)
    ∧ ((∀ m ∈ ms, score payer m.full_name < 85) → resolve score payer ms = none) := by
  refine ⟨?_, ?_, ?_, ?_⟩
  · rintro rfl; rfl
  · intro i h
    match ms with
    | [] => simp [resolve] at h
    | m :: rest =>
      obtain ⟨b, s, heo, ⟨mb, hmb, hnameb⟩, hsb, hall⟩ :=
        extractOne_dedup_spec (score payer) m rest
      rw [resolve] at h
      simp only [List.isEmpty_cons, heo] at h
      by_cases h85 : 85 ≤ s
      · rw [if_pos h85] at h
        obtain ⟨pre, mm, post, heq, hid, hnmm, _⟩ :=
          choicesVal_last_spec b (m :: rest) i h
        have hmem : mm ∈ m :: rest := by
          rw [heq]; exact List.mem_append_right _ (List.mem_cons_self _ _)
        refine ⟨mm, hmem, hid, ?_, ?_⟩
        · rw [hnmm, hsb]; exact h85
        · intro m2 hm2
          rw [hnmm, hsb]
          exact hall m2 hm2
      · rw [if_neg h85] at h
        exact absurd h (by simp)
  · rintro ⟨m0, hm0, h850⟩
    match ms with
    | [] => simp at hm0
    | m :: rest =>
      obtain ⟨b, s, heo, ⟨mb, hmb, hnameb⟩, hsb, hall⟩ :=
        extractOne_dedup_spec (score payer) m rest
      have h85 : 85 ≤ s := le_trans h850 (hall m0 hm0)
      have hex : ∃ i, choicesVal (m :: rest) b = some i := by
        rcases hc : choicesVal (m :: rest) b with _ | i
        · exact absurd hnameb ((choicesVal_eq_none b (m :: rest)).mp hc mb hmb)
        · exact ⟨i, rfl⟩
      obtain ⟨i, hi⟩ := hex
      refine ⟨i, ?_⟩
      rw [resolve]
      simp only [List.isEmpty_cons, heo]
      rw [if_pos h85]
      exact hi
  · intro hlt
    match ms with
    | [] => rfl
    | m :: rest =>
      obtain ⟨b, s, heo, ⟨mb, hmb, hnameb⟩, hsb, hall⟩ :=
        extractOne_dedup_spec (score payer) m rest
      have hs85 : s < 85 := by
        rw [← hsb, ← hnameb]
        exact hlt mb hmb
      rw [resolve]
      simp only [List.isEmpty_cons, heo]
      rw [if_neg (not_le.mpr hs85)]
      simp

def scoreW : String → String → ℕ := fun _ n => if n = "Joao Silva" then 90 else 50

def rosterW : List Member := [⟨1, "A01", "Maria Souza"⟩, ⟨2, "A02", "Joao Silva"⟩]

/-- C2 witness: on a concrete roster the resolver links the payer to the
member whose name scores 90. -/
theorem c2_resolver_threshold_witness :
    ∃ m, m ∈ rosterW ∧ m.id = 2 ∧ 85 ≤ scoreW "Joao" m.full_name ∧
      ∀ m2 ∈ rosterW, scoreW "Joao" m2.full_name ≤ scoreW "Joao" m.full_name :=
  (c2_resolver_threshold scoreW "Joao" rosterW).2.1 2 (by decide)

/-- C10: whenever the resolver returns a member id, that member is the
last one in roster order carrying its full name; a member whose full name
reappears later in the roster can never be the one linked. -/
theorem c10_duplicate_names_last_wins (score : String → String → ℕ) (payer : String)
    (ms : List Member) (i : Nat) (h : resolve score payer ms = some i) :
    ∃ pre m post, ms = pre ++ m :: post ∧ m.id = i ∧
      ∀ m2 ∈ post, m2.full_name ≠ m.full_name := by
  match ms with
  | [] => simp [resolve] at h
  | m :: rest =>
    obtain ⟨b, s, heo, ⟨mb, hmb, hnameb⟩, hsb, hall⟩ :=
      extractOne_dedup_spec (score payer) m rest
    rw [resolve] at h
    simp only [List.isEmpty_cons, heo] at h
    by_cases h85 : 85 ≤ s
    · rw [if_pos h85] at h
      obtain ⟨pre, mm, post, heq, hid, hnmm, hpost⟩ :=
        choicesVal_last_spec b (m :: rest) i h
      refine ⟨pre, mm, post, heq, hid, ?_⟩
      intro m2 hm2
      rw [hnmm]
      exact hpost m2 hm2
    · rw [if_neg h85] at h
      exact absurd h (by simp)

def rosterW2 : List Member := [⟨1, "A01", "Joao Silva"⟩, ⟨2, "A02", "Joao Silva"⟩]

/-- C10 witness: with two members sharing the same full name only the
later one can be linked. -/
theorem c10_duplicate_names_last_wins_witness :
    ∃ pre m post, rosterW2 = pre ++ m :: post ∧ m.id = 2 ∧
      ∀ m2 ∈ post, m2.full_name ≠ m.full_name :=
  c10_duplicate_names_last_wins scoreW "Joao" rosterW2 2 (by decide)

/- ### Lemmas about ingestion and duplicate absorption -/

theorem countPidTx_pos_iff (txs : List Transaction) (pid : String) :
    0 < countPidTx txs pid ↔ ∃ t ∈ txs, t.mp_id = some pid := by
  rw [countPidTx, List.length_pos]
  constructor
  · intro h
    match hf : txs.filter (fun t => t.mp_id = some pid) with
    | [] => exact absurd hf h
    | t :: l =>
      have ht : t ∈ txs.filter (fun t => t.mp_id = some pid) := by
        rw [hf]; exact List.mem_cons_self _ _
      have := List.mem_filter.mp ht
      exact ⟨t, this.1, by simpa using this.2⟩
  · rintro ⟨t, ht, hmp⟩ hnil
    have : t ∈ txs.filter (fun t => t.mp_id = some pid) :=
      List.mem_filter.mpr ⟨ht, by simpa using hmp⟩
    rw [hnil] at this
    simp at this

theorem insertIfAbsent_of_present (pid : String) (pname : String) (mref : Option Nat)
    (amt : ℚ) (dt : CalDate) (txs : List Transaction)
    (h : ∃ t ∈ txs, t.mp_id = some pid) :
    insertIfAbsent pid pname mref amt dt txs = txs := by
  rw [insertIfAbsent, if_pos]
  rw [List.any_eq_true]
  obtain ⟨t, ht, hmp⟩ := h
  exact ⟨t, ht, by simpa using hmp⟩

theorem insertIfAbsent_of_absent (pid : String) (pname : String) (mref : Option Nat)
    (amt : ℚ) (dt : CalDate) (txs : List Transaction)
    (h : ∀ t ∈ txs, t.mp_id ≠ some pid) :
    insertIfAbsent pid pname mref amt dt txs =
      txs ++ [⟨nextId (txs.map (·.id)), some pid, pname, mref, amt, dt,
               "pendente", "pix", none⟩] := by
  rw [insertIfAbsent, if_neg]
  rw [List.any_eq_true]
  rintro ⟨t, ht, hmp⟩
  exact h t ht (by simpa using hmp)

theorem countPidTx_append (l1 l2 : List Transaction) (pid : String) :
    countPidTx (l1 ++ l2) pid = countPidTx l1 pid + countPidTx l2 pid := by
  simp [countPidTx, List.filter_append]

theorem countPidTx_insert_self (pid : String) (pname : String) (mref : Option Nat)
    (amt : ℚ) (dt : CalDate) (txs : List Transaction) :
    countPidTx (insertIfAbsent pid pname mref amt dt txs) pid =
      if 0 < countPidTx txs pid then countPidTx txs pid else 1 := by
  by_cases h : ∃ t ∈ txs, t.mp_id = some pid
  · rw [insertIfAbsent_of_present _ _ _ _ _ _ h,
      if_pos ((countPidTx_pos_iff _ _).mpr h)]
  · push_neg at h
    have hz : countPidTx txs pid = 0 :=
      Nat.eq_zero_of_not_pos (fun hp => absurd ((countPidTx_pos_iff _ _).mp hp)
        (by push_neg; exact h))
    rw [insertIfAbsent_of_absent _ _ _ _ _ _ h, countPidTx_append, hz,
      if_neg (lt_irrefl 0)]
    simp [countPidTx]

theorem countPidTx_insert_other (pid q : String) (hq : q ≠ pid) (pname : String)
    (mref : Option Nat) (amt : ℚ) (dt : CalDate) (txs : List Transaction) :
    countPidTx (insertIfAbsent pid pname mref amt dt txs) q = countPidTx txs q := by
  by_cases h : ∃ t ∈ txs, t.mp_id = some pid
  · rw [insertIfAbsent_of_present _ _ _ _ _ _ h]
  · push_neg at h
    rw [insertIfAbsent_of_absent _ _ _ _ _ _ h, countPidTx_append]
    have : countPidTx [(⟨nextId (txs.map (·.id)), some pid, pname, mref, amt, dt,
        "pendente", "pix", none⟩ : Transaction)] q = 0 := by
      simp [countPidTx, hq.symm]
    rw [this]
    exact Nat.add_zero _

/-- The store after the insert path of the webhook. -/
def webhookInsert (score : String → String → ℕ) (pid : String) (pay : Payment)
    (db : DB) : DB :=
  let txs2 := insertIfAbsent pid (payerNameOf pay)
    (resolve score (payerNameOf pay) db.members) pay.transaction_amount
    pay.date_created db.transactions
  { db with transactions := txs2 }

theorem webhook_db_cases (score : String → String → ℕ) (gw : String → Option Payment)
    (notif : Notification) (db : DB) :
    (mp_webhook score true gw notif db).1 = db ∨
    ∃ pid pay, notif.dataId = some pid ∧ gw pid = some pay ∧
      (mp_webhook score true gw notif db).1 = webhookInsert score pid pay db := by
  rw [mp_webhook]
  rw [if_neg (by simp)]
  by_cases hk : isPaymentEvent notif = true
  · rw [if_pos hk]
    cases hid : notif.dataId with
    | none => exact Or.inl rfl
    | some pid =>
      dsimp only
      by_cases hpe : pid = ""
      · rw [if_pos hpe]; exact Or.inl rfl
      · rw [if_neg hpe]
        cases hgw : gw pid with
        | none => exact Or.inl rfl
        | some pay =>
          dsimp only
          by_cases happ : pay.status = "approved"
          · rw [if_pos happ]
            exact Or.inr ⟨pid, pay, rfl, hgw, rfl⟩
          · rw [if_neg happ]
            exact Or.inl rfl
  · rw [if_neg hk]
    exact Or.inl rfl

theorem webhook_approved (score : String → String → ℕ) (gw : String → Option Payment)
    (notif : Notification) (pid : String) (pay : Payment) (db : DB)
    (hk : isPaymentEvent notif = true) (hid : notif.dataId = some pid)
    (hpe : pid ≠ "") (hgw : gw pid = some pay) (happ : pay.status = "approved") :
    (mp_webhook score true gw notif db).1 = webhookInsert score pid pay db := by
  rw [mp_webhook]
  rw [if_neg (by simp)]
  rw [if_pos hk, hid]
  dsimp only
  rw [if_neg hpe, hgw]
  dsimp only
  rw [if_pos happ]
  rfl

theorem webhook_duplicate_noop (score : String → String → ℕ)
    (gw : String → Option Payment) (notif : Notification) (pid : String) (db : DB)
    (hid : notif.dataId = some pid) (hc : 1 ≤ countPid db pid) :
    (mp_webhook score true gw notif db).1.transactions = db.transactions := by
  rcases webhook_db_cases score gw notif db with heq | ⟨pid2, pay, hid2, hgw, heq⟩
  · rw [heq]
  · rw [heq]
    have hpp : pid2 = pid := by
      rw [hid] at hid2; exact (Option.some_inj.mp hid2).symm
    subst hpp
    show insertIfAbsent _ _ _ _ _ _ = db.transactions
    exact insertIfAbsent_of_present _ _ _ _ _ _ ((countPidTx_pos_iff _ _).mp hc)

theorem webhook_count_le_one (score : String → String → ℕ)
    (gw : String → Option Payment) (notif : Notification) (db : DB)
    (h : ∀ q, countPid db q ≤ 1) :
    ∀ q, countPid (mp_webhook score true gw notif db).1 q ≤ 1 := by
  intro q
  rcases webhook_db_cases score gw notif db with heq | ⟨pid, pay, hid, hgw, heq⟩
  · rw [heq]; exact h q
  · rw [heq]
    show countPidTx (insertIfAbsent _ _ _ _ _ _) q ≤ 1
    by_cases hq : q = pid
    · subst hq
      rw [countPidTx_insert_self]
      split
      · exact h q
      · exact le_refl 1
    · rw [countPidTx_insert_other _ _ hq]
      exact h q

theorem webhook_ok_status (score : String → String → ℕ) (gw : String → Option Payment)
    (notif : Notification) (db : DB) :
    (mp_webhook score true gw notif db).2.1 = 200 := by
  rw [mp_webhook]
  rw [if_neg (by simp)]
  by_cases hk : isPaymentEvent notif = true
  · rw [if_pos hk]
    cases notif.dataId with
    | none => rfl
    | some pid =>
      dsimp only
      by_cases hpe : pid = ""
      · rw [if_pos hpe]
      · rw [if_neg hpe]
        cases gw pid with
        | none => rfl
        | some pay =>
          dsimp only
          by_cases happ : pay.status = "approved"
          · rw [if_pos happ]
          · rw [if_neg happ]
  · rw [if_neg hk]

/-- C1: the uniqueness invariant (at most one transaction row per external
id) is preserved by any sequence of webhook deliveries; a delivery whose
external id already has a row leaves the transactions relation unchanged;
and delivering the same approved notification N times (N at least 1)
starting from a store without that external id yields exactly one row
carrying it. -/
theorem c1_idempotent_ingestion (score : String → String → ℕ)
    (gw : String → Option Payment) :
    (∀ (ds : List Notification) (db : DB),
        (∀ q, countPid db q ≤ 1) →
        ∀ q, countPid (ds.foldl (fun d n => (mp_webhook score true gw n d).1) db) q ≤ 1)
    ∧ (∀ (notif : Notification) (pid : String) (db : DB),
        notif.dataId = some pid → 1 ≤ countPid db pid →
        (mp_webhook score true gw notif db).1.transactions = db.transactions)
    ∧ (∀ (notif : Notification) (pid : String) (pay : Payment) (db : DB) (N : ℕ),
        isPaymentEvent notif = true → notif.dataId = some pid → pid ≠ "" →
        gw pid = some pay → pay.status = "approved" →
        countPid db pid = 0 → 1 ≤ N →
        countPid ((fun d => (mp_webhook score true gw notif d).1)^[N] db) pid = 1) := by
  refine ⟨?_, ?_, ?_⟩
  · intro ds
    induction ds with
    | nil => intro db h q; exact h q
    | cons n ds ih =>
      intro db h q
      exact ih _ (webhook_count_le_one score gw n db h) q
  · intro notif pid db hid hc
    exact webhook_duplicate_noop score gw notif pid db hid hc
  · intro notif pid pay db N hk hid hpe hgw happ h0 hN
    have hstep1 : ∀ d : DB, countPid d pid = 0 →
        countPid (mp_webhook score true gw notif d).1 pid = 1 := by
      intro d h0d
      rw [webhook_approved score gw notif pid pay d hk hid hpe hgw happ]
      show countPidTx (insertIfAbsent _ _ _ _ _ _) pid = 1
      rw [countPidTx_insert_self]
      have h0t : countPidTx d.transactions pid = 0 := h0d
      rw [h0t, if_neg (lt_irrefl 0)]
    have hkeep : ∀ d : DB, countPid d pid = 1 →
        countPid (mp_webhook score true gw notif d).1 pid = 1 := by
      intro d h1
      have hnc := webhook_duplicate_noop score gw notif pid d hid (by omega)
      show countPidTx (mp_webhook score true gw notif d).1.transactions pid = 1
      rw [hnc]
      exact h1
    have haux : ∀ (n : ℕ) (d : DB), countPid d pid = 1 →
        countPid ((fun d => (mp_webhook score true gw notif d).1)^[n] d) pid = 1 := by
      intro n
      induction n with
      | zero => intro d h1; exact h1
      | succ n ih =>
        intro d h1
        rw [Function.iterate_succ_apply]
        exact ih _ (hkeep d h1)
    obtain ⟨n, rfl⟩ : ∃ n, N = n + 1 := ⟨N - 1, by omega⟩
    rw [Function.iterate_succ_apply]
    exact haux n _ (hstep1 db h0)

def payW : Payment := ⟨"approved", "Joao", "Silva", 100, ⟨2026, 5, 10⟩⟩

def gwW : String → Option Payment := fun pid =>
  if pid = "pay_1" then some payW else none

def notifW : Notification := ⟨some "payment", none, some "pay_1"⟩

/-- C1 witness: delivering the same approved notification three times to
an empty store leaves exactly one row with its external id. -/
theorem c1_idempotent_ingestion_witness :
    countPid ((fun d => (mp_webhook scoreW true gwW notifW d).1)^[3] emptyDB) "pay_1" = 1 :=
  (c1_idempotent_ingestion scoreW gwW).2.2 notifW "pay_1" payW emptyDB 3
    (by decide) rfl (by decide) (by decide) rfl rfl (by omega)

/-- C4: with the gateway unconfigured the webhook answers the distinct
configuration error (HTTP 500) and changes nothing; with it configured
every notification is acknowledged with HTTP 200, and when the gateway
detail fetch fails nothing is persisted while the source still receives
200. -/
theorem c4_always_ack (score : String → String → ℕ) (gw : String → Option Payment)
    (notif : Notification) (db : DB) :
    mp_webhook score false gw notif db = (db, (500, "SDK nao configurado"))
    ∧ (mp_webhook score true gw notif db).2.1 = 200
    ∧ (∀ pid, notif.dataId = some pid → gw pid = none →
        (mp_webhook score true gw notif db).1 = db ∧
        (mp_webhook score true gw notif db).2.1 = 200) := by
  refine ⟨rfl, webhook_ok_status score gw notif db, ?_⟩
  intro pid hid hgw
  refine ⟨?_, webhook_ok_status score gw notif db⟩
  rcases webhook_db_cases score gw notif db with heq | ⟨pid2, pay, hid2, hgw2, heq⟩
  · exact heq
  · exfalso
    rw [hid] at hid2
    have hpp : pid2 = pid := (Option.some_inj.mp hid2).symm
    subst hpp
    rw [hgw] at hgw2
    exact Option.noConfusion hgw2

def gwFail : String → Option Payment := fun _ => none

/-- C4 witness: a failing gateway fetch leaves the store untouched and is
still acknowledged with 200. -/
theorem c4_always_ack_witness :
    (mp_webhook scoreW true gwFail notifW emptyDB).1 = emptyDB ∧
    (mp_webhook scoreW true gwFail notifW emptyDB).2.1 = 200 :=
  (c4_always_ack scoreW gwFail notifW emptyDB).2.2 "pay_1" rfl rfl

/- ### One-way status transition -/

theorem mem_insertIfAbsent (pid : String) (pname : String) (mref : Option Nat)
    (amt : ℚ) (dt : CalDate) (txs : List Transaction) (t : Transaction)
    (ht : t ∈ txs) : t ∈ insertIfAbsent pid pname mref amt dt txs := by
  rw [insertIfAbsent]
  split
  · exact ht
  · exact List.mem_append_left _ ht

theorem step_keeps_confirmed (score : String → String → ℕ)
    (gw : String → Option Payment) (op : Op) (db : DB) (t : Transaction)
    (ht : t ∈ db.transactions) (hs : t.status = "confirmado") :
    ∃ t2, t2 ∈ (step score gw op db).1.transactions ∧ t2.id = t.id ∧
      t2.status = "confirmado" := by
  cases op with
  | hook sdkOk n =>
    cases sdkOk with
    | false => exact ⟨t, ht, rfl, hs⟩
    | true =>
      show ∃ t2, t2 ∈ (mp_webhook score true gw n db).1.transactions ∧ _
      rcases webhook_db_cases score gw n db with heq | ⟨pid, pay, hid, hgw, heq⟩
      · rw [heq]
        exact ⟨t, ht, rfl, hs⟩
      · rw [heq]
        exact ⟨t, mem_insertIfAbsent _ _ _ _ _ _ _ ht, rfl, hs⟩
  | txPost p =>
    cases p with
    | confirm i ty =>
      refine ⟨if t.id = i then { t with type := some ty, status := "confirmado" } else t,
        ?_, ?_, ?_⟩
      · exact List.mem_map_of_mem _ ht
      · by_cases h : t.id = i <;> simp [h]
      · by_cases h : t.id = i <;> simp [h, hs]
    | manual_add name amt ty now =>
      exact ⟨t, List.mem_append_left _ ht, rfl, hs⟩
  | memberAdd c n => exact ⟨t, ht, rfl, hs⟩
  | memberDelete i =>
    refine ⟨if t.member_id = some i then { t with member_id := none } else t,
      ?_, ?_, ?_⟩
    · exact List.mem_map_of_mem _ ht
    · by_cases h : t.member_id = some i <;> simp [h]
    · by_cases h : t.member_id = some i <;> simp [h, hs]
  | expenseAdd de c a dt => exact ⟨t, ht, rfl, hs⟩
  | expenseDelete i => exact ⟨t, ht, rfl, hs⟩

/-- C5: across any sequence of exposed operations (webhook deliveries,
confirmations, manual entries, member and expense changes) a transaction
that is confirmed keeps a row with its id still confirmed: the status
never returns to pending. -/
theorem c5_one_way_status (score : String → String → ℕ)
    (gw : String → Option Payment) (ops : List Op) (db : DB) (t : Transaction)
    (ht : t ∈ db.transactions) (hs : t.status = "confirmado") :
    ∃ t2, t2 ∈ (ops.foldl (fun d op => (step score gw op d).1) db).transactions ∧
      t2.id = t.id ∧ t2.status = "confirmado" := by
  induction ops generalizing db t with
  | nil => exact ⟨t, ht, rfl, hs⟩
  | cons op ops ih =>
    obtain ⟨t2, ht2, hid2, hs2⟩ := step_keeps_confirmed score gw op db t ht hs
    obtain ⟨t3, ht3, hid3, hs3⟩ := ih _ _ ht2 hs2
    exact ⟨t3, ht3, hid3.trans hid2, hs3⟩

def txW : Transaction :=
  ⟨1, none, "Ana", none, 50, ⟨2026, 5, 1⟩, "confirmado", "manual", some "dizimo"⟩

def dbW : DB := ⟨[⟨1, "A01", "Joao Silva"⟩], [txW], []⟩

def opsW : List Op :=
  [.txPost (.confirm 1 "oferta"), .memberDelete 1, .hook true notifW, .expenseDelete 3]

/-- C5 witness: after a confirmation, a member deletion, a webhook
delivery and an expense deletion, the confirmed transaction is still
confirmed. -/
theorem c5_one_way_status_witness :
    ∃ t2, t2 ∈ (opsW.foldl (fun d op => (step scoreW gwW op d).1) dbW).transactions ∧
      t2.id = txW.id ∧ t2.status = "confirmado" :=
  c5_one_way_status scoreW gwW opsW dbW txW (by decide) rfl

/- ### Operator actions on already-confirmed or nonexistent rows -/

theorem map_id_of_mem {α : Type} (l : List α) (f : α → α) (h : ∀ x ∈ l, f x = x) :
    l.map f = l := by
  induction l with
  | nil => rfl
  | cons x l ih =>
    rw [List.map_cons, h x (List.mem_cons_self _ _),
      ih (fun y hy => h y (List.mem_cons_of_mem _ hy))]

theorem filter_eq_self_of {α : Type} (l : List α) (p : α → Bool)
    (h : ∀ x ∈ l, p x = true) : l.filter p = l := by
  induction l with
  | nil => rfl
  | cons x l ih =>
    rw [List.filter_cons, if_pos (h x (List.mem_cons_self _ _)),
      ih (fun y hy => h y (List.mem_cons_of_mem _ hy))]

/-- C6 counterexample: confirming an already-confirmed transaction with a
different category is neither a no-op (the stored category changes from
dizimo to oferta) nor an error (the route answers the ordinary success
message). -/
theorem c6_confirm_again_counterexample :
    (manage_transactions (.confirm 1 "oferta") dbW).1.transactions ≠ dbW.transactions
    ∧ (manage_transactions (.confirm 1 "oferta") dbW).1.transactions =
        [⟨1, none, "Ana", none, 50, ⟨2026, 5, 1⟩, "confirmado", "manual", some "oferta"⟩]
    ∧ (manage_transactions (.confirm 1 "oferta") dbW).2 = (200, "Sucesso") := by
  refine ⟨by decide, by decide, rfl⟩

/-- C6 amended: applying the confirm action to an already-confirmed
transaction always reports success and re-applies the update: the status
stays confirmed, every other field is kept, but the category is
overwritten with the supplied one — so it is a no-op only when the
supplied category equals the stored one, and it is never an error. -/
theorem c6_confirm_already_confirmed (db : DB) (i : Nat) (ty : String) :
    (manage_transactions (.confirm i ty) db).2 = (200, "Sucesso")
    ∧ ∀ t ∈ db.transactions, t.status = "confirmado" → t.id = i →
        ∃ t2 ∈ (manage_transactions (.confirm i ty) db).1.transactions,
          t2.id = t.id ∧ t2.status = "confirmado" ∧ t2.type = some ty ∧
          t2.amount = t.amount ∧ t2.payer_name = t.payer_name ∧
          t2.mp_id = t.mp_id ∧ t2.member_id = t.member_id ∧
          t2.transaction_date = t.transaction_date ∧ t2.origin = t.origin := by
  refine ⟨rfl, ?_⟩
  intro t ht hst hid
  refine ⟨if t.id = i then { t with type := some ty, status := "confirmado" } else t,
    List.mem_map_of_mem _ ht, ?_⟩
  rw [if_pos hid]
  exact ⟨rfl, rfl, rfl, rfl, rfl, rfl, rfl, rfl, rfl⟩

/-- C6 witness: re-confirming the stored transaction with a new category
keeps it confirmed and replaces the category. -/
theorem c6_confirm_already_confirmed_witness :
    ∃ t2 ∈ (manage_transactions (.confirm 1 "oferta") dbW).1.transactions,
      t2.id = txW.id ∧ t2.status = "confirmado" ∧ t2.type = some "oferta" ∧
      t2.amount = txW.amount ∧ t2.payer_name = txW.payer_name ∧
      t2.mp_id = txW.mp_id ∧ t2.member_id = txW.member_id ∧
      t2.transaction_date = txW.transaction_date ∧ t2.origin = txW.origin :=
  (c6_confirm_already_confirmed dbW 1 "oferta").2 txW (by decide) rfl rfl

/-- C9 counterexample: operator actions naming a nonexistent transaction,
member or expense id answer the ordinary success message and change
nothing — no NotFoundError is surfaced. -/
theorem c9_not_found_counterexample :
    (manage_transactions (.confirm 1 "dizimo") emptyDB).1 = emptyDB
    ∧ (manage_transactions (.confirm 1 "dizimo") emptyDB).2 = (200, "Sucesso")
    ∧ (manage_members_delete 1 emptyDB).1 = emptyDB
    ∧ (manage_members_delete 1 emptyDB).2 = (200, "Membro removido")
    ∧ (manage_expenses_delete 1 emptyDB).1 = emptyDB
    ∧ (manage_expenses_delete 1 emptyDB).2 = (200, "Despesa removida") := by
  refine ⟨rfl, rfl, rfl, rfl, rfl, rfl⟩

/-- C9 amended: an operator action referencing a nonexistent id is not
detected: the UPDATE or DELETE matches zero rows, the store is left
unchanged, and the ordinary success response is returned; no
NotFoundError exists in the code. -/
theorem c9_nonexistent_id_succeeds (db : DB) (i : Nat) (ty : String) :
    ((∀ t ∈ db.transactions, t.id ≠ i) →
      (manage_transactions (.confirm i ty) db).1 = db ∧
      (manage_transactions (.confirm i ty) db).2 = (200, "Sucesso"))
    ∧ ((∀ m ∈ db.members, m.id ≠ i) →
        (∀ t ∈ db.transactions, t.member_id ≠ some i) →
      (manage_members_delete i db).1 = db ∧
      (manage_members_delete i db).2 = (200, "Membro removido"))
    ∧ ((∀ e ∈ db.expenses, e.id ≠ i) →
      (manage_expenses_delete i db).1 = db ∧
      (manage_expenses_delete i db).2 = (200, "Despesa removida")) := by
  refine ⟨?_, ?_, ?_⟩
  · intro h
    refine ⟨?_, rfl⟩
    show ({ db with transactions := db.transactions.map _ } : DB) = db
    rw [map_id_of_mem _ _ (fun t ht => if_neg (h t ht))]
  · intro hm htx
    refine ⟨?_, rfl⟩
    show ({ db with members := _, transactions := _ } : DB) = db
    rw [filter_eq_self_of _ _ (fun m hm2 => by simp [hm m hm2]),
      map_id_of_mem _ _ (fun t ht => if_neg (htx t ht))]
  · intro h
    refine ⟨?_, rfl⟩
    show ({ db with expenses := _ } : DB) = db
    rw [filter_eq_self_of _ _ (fun e he => by simp [h e he])]

/-- C9 witness: confirming an id with no matching row succeeds and leaves
the store unchanged. -/
theorem c9_nonexistent_id_succeeds_witness :
    (manage_transactions (.confirm 7 "dizimo") dbW).1 = dbW ∧
    (manage_transactions (.confirm 7 "dizimo") dbW).2 = (200, "Sucesso") :=
  (c9_nonexistent_id_succeeds dbW 7 "dizimo").1 (by decide)

/- ### Dashboard and report properties -/

def tx7 : Transaction :=
  ⟨1, some "p1", "X", none, 100, ⟨2020, 5, 10⟩, "confirmado", "pix", some "dizimo"⟩

def db7 : DB := ⟨[], [tx7], []⟩

def today7 : CalDate := ⟨2026, 5, 15⟩

/-- C7 counterexample: a confirmed transaction dated May 2020 is counted
by the dashboard inflow on a current date of May 2026 — the SQL filter of
the dashboard compares only the month, never the year, so the live
summary is not the aggregator of the current calendar period. -/
theorem c7_dashboard_counterexample :
    (get_dashboard db7 today7).inflow = 100
    ∧ specDashboardInflow db7 today7 = 0
    ∧ (get_dashboard db7 today7).inflow ≠ specDashboardInflow db7 today7 := by
  refine ⟨?_, rfl, ?_⟩
  · with_unfolding_all decide
  · with_unfolding_all decide

/-- C7 amended: the dashboard is the previousBalance = 0 aggregation over
the rows whose MONTH matches the current month, with the year ignored:
its balance is the net delta of that month-only inflow and outflow, any
two current dates with the same month produce the identical dashboard,
and a confirmed transaction with a matching month is counted whatever its
year. -/
theorem c7_dashboard_month_only (db : DB) (today : CalDate) (t : Transaction) :
    (get_dashboard db today).balance =
      pyFloat (monthInflowExact db today.month - monthOutflowExact db today.month)
    ∧ (∀ today2 : CalDate, today2.month = today.month →
        get_dashboard db today2 = get_dashboard db today)
    ∧ (t.status = "confirmado" → t.transaction_date.month = today.month →
        monthInflowExact { db with transactions := t :: db.transactions } today.month =
          t.amount + monthInflowExact db today.month) := by
  refine ⟨rfl, ?_, ?_⟩
  · intro today2 h
    rw [get_dashboard, get_dashboard, h]
  · intro hst hmm
    rw [monthInflowExact]
    show ((List.filter _ (t :: db.transactions)).map _).sum = _
    rw [List.filter_cons, if_pos (by simp [hst, hmm]), List.map_cons, List.sum_cons]
    rfl

/-- C7 witness: two current dates in the same month but six years apart
yield the identical dashboard. -/
theorem c7_dashboard_month_only_witness :
    get_dashboard db7 ⟨2020, 5, 2⟩ = get_dashboard db7 today7 :=
  (c7_dashboard_month_only db7 today7 txW).2.1 ⟨2020, 5, 2⟩ rfl

theorem report_total_in_eq (month year : Nat) (prev : ℚ) (db : DB) :
    (generate_report month year prev db).total_in = (aggregate month year prev db).1 := by
  show fsum _ = fsum _
  congr 1
  rw [List.map_map]
  rfl

theorem report_total_out_eq (month year : Nat) (prev : ℚ) (db : DB) :
    (generate_report month year prev db).total_out = (aggregate month year prev db).2.1 :=
  rfl

theorem report_balance_eq (month year : Nat) (prev : ℚ) (db : DB) :
    (generate_report month year prev db).final_balance =
      (aggregate month year prev db).2.2 := by
  show fsub (fadd (pyFloat prev) ((generate_report month year prev db).total_in))
      ((generate_report month year prev db).total_out) = _
  rw [report_total_in_eq, report_total_out_eq]
  rfl

def tx3a : Transaction :=
  ⟨1, some "a", "X", none, 1/10, ⟨2026, 5, 3⟩, "confirmado", "pix", some "dizimo"⟩

def tx3b : Transaction :=
  ⟨2, some "b", "Y", none, 1/5, ⟨2026, 5, 4⟩, "confirmado", "pix", some "oferta"⟩

def db3 : DB := ⟨[], [tx3a, tx3b], []⟩

/-- C3 counterexample: with confirmed amounts 0.10 and 0.20 in the period
and previous balance 0, the fixed-point balance is exactly 0.30, but the
report computes its totals by summing binary64 floats, and its closing
balance is the float 0.30000000000000004440892098500626... — the
aggregation is not carried out in 2-decimal fixed-point arithmetic. -/
theorem c3_fixed_point_counterexample :
    specExactBalance 5 2026 0 db3 = 3 / 10
    ∧ (generate_report 5 2026 0 db3).final_balance ≠ 3 / 10
    ∧ (generate_report 5 2026 0 db3).final_balance ≠ specExactBalance 5 2026 0 db3 := by
  have h1 : specExactBalance 5 2026 0 db3 = 3 / 10 := by with_unfolding_all decide
  have h2 : (generate_report 5 2026 0 db3).final_balance ≠ 3 / 10 := by
    with_unfolding_all decide
  exact ⟨h1, h2, fun h => h2 (h.trans h1)⟩

/-- C3 amended: the report balance satisfies the balance equation in the
arithmetic the code actually uses — IEEE-754 binary64: it equals the
float evaluation of (previousBalance + inflow) - outflow over the float
totals of the period (and evaluation of the pure model is deterministic
by construction); the dashboard, by contrast, sums the NUMERIC amounts
exactly and only converts its final net delta to float. -/
theorem c3_float_balance_equation (month year : Nat) (prev : ℚ) (db : DB)
    (today : CalDate) :
    (generate_report month year prev db).final_balance =
      fsub (fadd (pyFloat prev) (aggregate month year prev db).1)
        (aggregate month year prev db).2.1
    ∧ (get_dashboard db today).balance =
        pyFloat (monthInflowExact db today.month - monthOutflowExact db today.month) :=
  ⟨report_balance_eq month year prev db, rfl⟩

/-- C8: in every compiled statement the float sum of the amounts rendered
in the itemized inflow table equals the total-inflow figure of the
summary block, likewise for the outflow table, and the closing-balance
line equals the aggregator balance for the same period and previous
balance. -/
theorem c8_document_totals (month year : Nat) (prev : ℚ) (db : DB) :
    fsum ((generate_report month year prev db).inflow_rows.map (fun r => r.2.2.2)) =
      (generate_report month year prev db).total_in
    ∧ fsum ((generate_report month year prev db).outflow_rows.map (fun r => r.2.2)) =
      (generate_report month year prev db).total_out
    ∧ (generate_report month year prev db).final_balance =
      (aggregate month year prev db).2.2 := by
  refine ⟨?_, ?_, report_balance_eq month year prev db⟩
  · simp only [generate_report, List.map_map]
    rfl
  · simp only [generate_report, List.map_map]
    rfl
